import Mathlib

/-
Verification of the leviso-elf library dependency resolver and copier.

The development shallowly embeds the Rust sources:
  src/analyze.rs  (get_library_dependencies, parse_readelf_output, get_all_dependencies)
  src/paths.rs    (find_library)
  src/copy.rs     (copy_library_to, copy_dir_recursive, copy_dir_recursive_overwrite)

Modelling conventions:
  - Strings are modelled by Lean String; the Rust byte-level string scans
    all search for ASCII characters, at which byte indices and character
    indices delimit the same substrings, so character-level definitions are
    faithful.  The primitive scans (substring test, split, trim) are
    re-implemented by structural recursion on the character list so that
    the kernel can evaluate them.
  - File systems are modelled by finite directory trees (inductive Node).
    A path is a list of components.  Rust Path::exists follows symlinks;
    the model resolves trailing symlink chains with the Linux limit of 40
    links.  Intermediate path components are looked up as plain directory
    entries (the modelled trees never route directories through symlinks).
  - Process execution (readelf) is modelled by its observable output: an
    optional CmdOutput (none = the tool could not be launched).
  - A Rust panic is modelled as the value none of an Option-typed result.
-/

namespace LevisoElf

/-- Boolean substring test on character lists, embedding Rust str::contains. -/
def infixOfB (pat hay : List Char) : Bool :=
  if pat.isPrefixOf hay then true
  else
    match hay with
    | [] => false
    | _ :: t => infixOfB pat t

/-- Rust str::contains for string patterns. -/
def strContains (hay pat : String) : Bool := infixOfB pat.data hay.data

/-- Split a character list at a separator character; embeds splitting a path
or a text at a delimiter.  Always returns at least one (possibly empty) group. -/
def splitOnChar (c : Char) : List Char → List (List Char)
  | [] => [[]]
  | x :: xs =>
    if x = c then [] :: splitOnChar c xs
    else
      match splitOnChar c xs with
      | [] => [[x]]
      | g :: gs => (x :: g) :: gs

/-- The components of a path string: split at the path separator, dropping
empty components (so leading and duplicate separators are ignored, as the
kernel does when resolving a path). -/
def splitPath (s : String) : List String :=
  ((splitOnChar '/' s.data).filter (fun c => c ≠ [])).map String.mk

/-- Strip one trailing carriage return, as Rust str::lines does on each
line that was terminated by a newline. -/
def stripCR (l : List Char) : List Char :=
  if l.getLast? = some '\r' then l.dropLast else l

/-- Embedding of Rust str::lines: split at newline characters; a final line
ending is optional; every line that was terminated by a newline has one
trailing carriage return stripped. -/
def rustLines (s : String) : List String :=
  let parts := splitOnChar '\n' s.data
  match parts.getLast? with
  | some [] => (parts.dropLast.map stripCR).map String.mk
  | some last => (parts.dropLast.map stripCR).map String.mk ++ [String.mk last]
  | none => []

/-- Embedding of Rust str::trim (whitespace stripped from both ends). -/
def rustTrim (s : String) : String :=
  String.mk (((s.data.dropWhile Char.isWhitespace).reverse.dropWhile Char.isWhitespace).reverse)

/- ===== src/analyze.rs : parse_readelf_output ===== -/

/-- Embedding of the per-line body of the parse loop of parse_readelf_output
(analyze.rs lines 68-79).  Result values:
  some (some name) : the line contributes the entry name,
  some none        : the line is skipped,
  none             : the Rust code panics on this line (the byte slice
                     line[start+1..end] has start+1 > end, which aborts).
The Rust code takes start = index of the first open bracket and
end = index of the first close bracket of the whole line. -/
def extractLib (line : String) : Option (Option String) :=
  if strContains line "(NEEDED)" && strContains line "Shared library:" then
    match line.data.findIdx? (fun c => c == '[') with
    | none => some none
    | some s =>
      match line.data.findIdx? (fun c => c == ']') with
      | none => some none
      | some e =>
        if s + 1 ≤ e then some (some (String.mk ((line.data.drop (s + 1)).take (e - (s + 1)))))
        else none
  else some none

/-- Fold of extractLib over the lines, in order; a panic on any line aborts
the whole call (Option none). -/
def parseLinesGo : List String → Option (List String)
  | [] => some []
  | l :: ls =>
    match extractLib l with
    | none => none
    | some o =>
      match parseLinesGo ls with
      | none => none
      | some r => some (o.toList ++ r)

/-- Embedding of parse_readelf_output (analyze.rs lines 65-82).  The Rust
function returns Result but never constructs an error; the Option layer
models the possible panic of the slice operation.  some libs corresponds
to Ok(libs). -/
def parse_readelf_output (out : String) : Option (List String) :=
  parseLinesGo (rustLines out)

/- ===== src/analyze.rs : get_library_dependencies ===== -/

/-- Observable outcome of running the readelf process: its exit status
success flag and captured stdout / stderr texts. -/
structure CmdOutput where
  success : Bool
  stdout : String
  stderr : String

/-- Embedding of get_library_dependencies (analyze.rs lines 24-54) over the
observable environment: whether the inspected path exists, and the outcome
of running readelf on it (none = readelf could not be launched).  The outer
Option models a possible panic inside parsing; Except String models
anyhow::Result with the produced error message. -/
def get_library_dependencies (path : String) (fileExists : Bool)
    (run : Option CmdOutput) : Option (Except String (List String)) :=
  if !fileExists then
    some (.error ("File does not exist: " ++ path))
  else
    match run with
    | none => some (.error "readelf command not found - install binutils")
    | some out =>
      if !out.success then
        if strContains out.stderr "Not an ELF file"
            || strContains out.stderr "not a dynamic executable"
            || strContains out.stderr "File format not recognized" then
          some (.ok [])
        else
          some (.error ("readelf failed on " ++ path ++ ": " ++ rustTrim out.stderr))
      else
        match parse_readelf_output out.stdout with
        | none => none
        | some libs => some (.ok libs)

/- ===== src/analyze.rs : get_all_dependencies ===== -/

/-- The dependency table: for each path (rendered as a string), the list of
NEEDED names that a successful get_library_dependencies call returns for
it.  Paths absent from the table have no dependencies.  This is the finite
file-system environment the worklist of get_all_dependencies runs against. -/
abbrev DepTab := List (String × List String)

/-- Dependencies of one path under the table. -/
def lookupDeps (tab : DepTab) (p : String) : List String :=
  match tab.find? (fun e => e.1 == p) with
  | some e => e.2
  | none => []

/-- Every library name occurring anywhere in the table, without duplicates;
used only for the termination measure. -/
def allNames (tab : DepTab) : List String := (tab.flatMap (·.2)).dedup

/-- Number of table names not yet inserted into the result set; the
termination measure of the worklist strictly consumes it. -/
def newMissing (tab : DepTab) (al : List String) : Nat :=
  ((allNames tab).filter (fun n => decide (n ∉ al))).length

/-- Embedding of the body of the insertion branch (analyze.rs lines
106-109): after a new name was inserted, find_library either resolves it to
a path, which is pushed onto the worklist, or fails, and nothing is pushed. -/
def pushResolved (r : String → Option String) (name : String) (tp : List String) :
    List String :=
  match r name with
  | some path => path :: tp
  | none => tp

/-- Embedding of the inner for loop of get_all_dependencies (analyze.rs
lines 104-111): walk the freshly extracted names in order; a name already
in the result set is skipped, a new name is inserted and its resolved path
(if any) is pushed onto the worklist.  The list al represents the HashSet
all_libs (membership is identity); the worklist head is the stack top. -/
def processDeps (r : String → Option String) :
    List String → List String → List String → List String × List String
  | [], tp, al => (tp, al)
  | name :: ds, tp, al =>
    if name ∈ al then processDeps r ds tp al
    else processDeps r ds (pushResolved r name tp) (name :: al)

theorem pushResolved_length (r : String → Option String) (name : String)
    (tp : List String) :
    (pushResolved r name tp).length ≤ tp.length + 1 := by
  cases h : r name <;> simp [pushResolved, h]

theorem filter_len_mono {l : List String} {p q : String → Bool}
    (h : ∀ x ∈ l, q x = true → p x = true) :
    (l.filter q).length ≤ (l.filter p).length := by
  rw [← List.countP_eq_length_filter, ← List.countP_eq_length_filter]
  exact List.countP_mono_left h

theorem filter_excl_lt {l al : List String} {a : String}
    (ha : a ∈ l) (hal : a ∉ al) :
    (l.filter (fun n => decide (n ∉ a :: al))).length <
      (l.filter (fun n => decide (n ∉ al))).length := by
  induction l with
  | nil => cases ha
  | cons x xs ih =>
    have hmono : (xs.filter (fun n => decide (n ∉ a :: al))).length ≤
        (xs.filter (fun n => decide (n ∉ al))).length := by
      apply filter_len_mono
      intro b _ hb
      simp only [decide_eq_true_eq, List.mem_cons, not_or] at hb ⊢
      exact hb.2
    by_cases hxa : x = a
    · subst hxa
      rw [List.filter_cons_of_neg (by simp), List.filter_cons_of_pos (by simpa using hal)]
      simp only [List.length_cons]
      omega
    · rcases List.mem_cons.mp ha with h | h
      · exact absurd h.symm hxa
      · by_cases hxl : x ∈ al
        · rw [List.filter_cons_of_neg (by simp [hxl]), List.filter_cons_of_neg (by simp [hxl])]
          exact ih h
        · rw [List.filter_cons_of_pos (by simp [hxa, hxl]),
            List.filter_cons_of_pos (by simp [hxl])]
          simp only [List.length_cons]
          have := ih h
          omega

theorem processDeps_measure (tab : DepTab) (r : String → Option String)
    (ds : List String) (hds : ∀ n ∈ ds, n ∈ allNames tab) :
    ∀ tp al,
      (processDeps r ds tp al).1.length + 2 * newMissing tab (processDeps r ds tp al).2 ≤
        tp.length + 2 * newMissing tab al := by
  induction ds with
  | nil => intro tp al; simp [processDeps]
  | cons name ds ih =>
    intro tp al
    have hmem : name ∈ allNames tab := hds name (List.mem_cons_self _ _)
    have hds' : ∀ n ∈ ds, n ∈ allNames tab := fun n hn => hds n (List.mem_cons_of_mem _ hn)
    simp only [processDeps]
    by_cases hc : name ∈ al
    · rw [if_pos hc]; exact ih hds' tp al
    · rw [if_neg hc]
      have hdec : newMissing tab (name :: al) < newMissing tab al :=
        filter_excl_lt hmem hc
      have hlen := pushResolved_length r name tp
      have := ih hds' (pushResolved r name tp) (name :: al)
      omega

theorem lookupDeps_subset (tab : DepTab) (p : String) :
    ∀ n ∈ lookupDeps tab p, n ∈ allNames tab := by
  intro n hn
  unfold lookupDeps at hn
  cases hfind : tab.find? (fun e => e.1 == p) with
  | none => rw [hfind] at hn; cases hn
  | some e =>
    rw [hfind] at hn
    have he : e ∈ tab := List.mem_of_find?_eq_some hfind
    unfold allNames
    rw [List.mem_dedup]
    exact List.mem_flatMap.mpr ⟨e, he, hn⟩

theorem depLoop_dec (tab : DepTab) (r : String → Option String)
    (p : String) (rest al : List String) :
    (processDeps r (lookupDeps tab p) rest al).1.length +
        2 * newMissing tab (processDeps r (lookupDeps tab p) rest al).2 <
      (p :: rest).length + 2 * newMissing tab al := by
  have := processDeps_measure tab r (lookupDeps tab p) (lookupDeps_subset tab p) rest al
  simp only [List.length_cons]
  omega

/-- Embedding of the while let loop of get_all_dependencies (analyze.rs
lines 97-112).  Arguments: the worklist to_process (head = stack top), the
visited set processed, and the result set all_libs, both represented by
lists whose membership is the set membership.  Returns the final pair
(all_libs, processed).  Termination of the Rust loop over a finite file
system corresponds to the measure on the finite name set of the table. -/
def depLoop (tab : DepTab) (r : String → Option String) :
    List String → List String → List String → List String × List String
  | [], processed, al => (al, processed)
  | p :: rest, processed, al =>
    if p ∈ processed then depLoop tab r rest processed al
    else
      depLoop tab r (processDeps r (lookupDeps tab p) rest al).1 (p :: processed)
        (processDeps r (lookupDeps tab p) rest al).2
termination_by tp _ al => tp.length + 2 * newMissing tab al
decreasing_by
  · simp only [List.length_cons]; omega
  · exact depLoop_dec tab r _ _ _

/-- Embedding of get_all_dependencies (analyze.rs lines 88-115), giving the
final result set (as a duplicate-free list).  The resolver r stands for
find_library source_root . extra_lib_paths rendered to a path string. -/
def get_all_dependencies (tab : DepTab) (r : String → Option String)
    (binary_path : String) : List String :=
  (depLoop tab r [binary_path] [] []).1

/-- The visited set a get_all_dependencies run ends with: exactly the paths
on which dependency extraction was performed (each was extracted when it
was inserted). -/
def extractedPaths (tab : DepTab) (r : String → Option String)
    (binary_path : String) : List String :=
  (depLoop tab r [binary_path] [] []).2

/-- A library name is reachable from the seed binary by a finite chain of
NEEDED edges: either it is a direct dependency of the seed, or it is a
dependency of the resolved path of a reachable name. -/
inductive Reachable (tab : DepTab) (r : String → Option String) (seed : String) :
    String → Prop
  | seed {n : String} : n ∈ lookupDeps tab seed → Reachable tab r seed n
  | step {m q n : String} : Reachable tab r seed m → r m = some q →
      n ∈ lookupDeps tab q → Reachable tab r seed n

end LevisoElf

namespace LevisoElf

/-- A path is a node of the traversal: the seed binary, or the resolved
path of a reachable library name. -/
def ReachPath (tab : DepTab) (r : String → Option String) (seed p : String) : Prop :=
  p = seed ∨ ∃ m, Reachable tab r seed m ∧ r m = some p

theorem reach_of_reachPath {tab : DepTab} {r : String → Option String}
    {seed p n : String} (hp : ReachPath tab r seed p)
    (hn : n ∈ lookupDeps tab p) : Reachable tab r seed n := by
  rcases hp with rfl | ⟨m, hm, hr⟩
  · exact .seed hn
  · exact .step hm hr hn

theorem pushResolved_mem (r : String → Option String) (name : String)
    (tp : List String) (p0 : String) :
    p0 ∈ pushResolved r name tp ↔ r name = some p0 ∨ p0 ∈ tp := by
  cases h : r name with
  | none => simp [pushResolved, h]
  | some path =>
    simp only [pushResolved, h, List.mem_cons, Option.some.injEq]
    constructor
    · rintro (rfl | hh)
      · exact Or.inl rfl
      · exact Or.inr hh
    · rintro (rfl | hh)
      · exact Or.inl rfl
      · exact Or.inr hh

theorem processDeps_al_mono (r : String → Option String) (ds : List String) :
    ∀ tp al n, n ∈ al → n ∈ (processDeps r ds tp al).2 := by
  induction ds with
  | nil => intro tp al n hn; simpa [processDeps] using hn
  | cons name ds ih =>
    intro tp al n hn
    simp only [processDeps]
    by_cases hc : name ∈ al
    · rw [if_pos hc]; exact ih tp al n hn
    · rw [if_neg hc]
      exact ih (pushResolved r name tp) (name :: al) n (List.mem_cons_of_mem _ hn)

theorem processDeps_tp_mono (r : String → Option String) (ds : List String) :
    ∀ tp al p0, p0 ∈ tp → p0 ∈ (processDeps r ds tp al).1 := by
  induction ds with
  | nil => intro tp al p0 hp0; simpa [processDeps] using hp0
  | cons name ds ih =>
    intro tp al p0 hp0
    simp only [processDeps]
    by_cases hc : name ∈ al
    · rw [if_pos hc]; exact ih tp al p0 hp0
    · rw [if_neg hc]
      exact ih (pushResolved r name tp) (name :: al) p0
        ((pushResolved_mem r name tp p0).mpr (Or.inr hp0))

theorem processDeps_names (r : String → Option String) (ds : List String) :
    ∀ tp al n, n ∈ ds → n ∈ (processDeps r ds tp al).2 := by
  induction ds with
  | nil => intro tp al n hn; cases hn
  | cons name ds ih =>
    intro tp al n hn
    simp only [processDeps]
    by_cases hc : name ∈ al
    · rw [if_pos hc]
      rcases List.mem_cons.mp hn with rfl | hn'
      · exact processDeps_al_mono r ds tp al n hc
      · exact ih tp al n hn'
    · rw [if_neg hc]
      rcases List.mem_cons.mp hn with rfl | hn'
      · exact processDeps_al_mono r ds (pushResolved r n tp) (n :: al) n
          (List.mem_cons_self _ _)
      · exact ih (pushResolved r name tp) (name :: al) n hn'

theorem processDeps_al_sub (r : String → Option String) (ds : List String) :
    ∀ tp al n, n ∈ (processDeps r ds tp al).2 → n ∈ al ∨ n ∈ ds := by
  induction ds with
  | nil => intro tp al n hn; simp only [processDeps] at hn; exact Or.inl hn
  | cons name ds ih =>
    intro tp al n hn
    simp only [processDeps] at hn
    by_cases hc : name ∈ al
    · rw [if_pos hc] at hn
      rcases ih tp al n hn with h | h
      · exact Or.inl h
      · exact Or.inr (List.mem_cons_of_mem _ h)
    · rw [if_neg hc] at hn
      rcases ih (pushResolved r name tp) (name :: al) n hn with h | h
      · rcases List.mem_cons.mp h with rfl | h'
        · exact Or.inr (List.mem_cons_self _ _)
        · exact Or.inl h'
      · exact Or.inr (List.mem_cons_of_mem _ h)

theorem processDeps_tp_sub (r : String → Option String) (ds : List String) :
    ∀ tp al p0, p0 ∈ (processDeps r ds tp al).1 →
      p0 ∈ tp ∨ ∃ n ∈ ds, r n = some p0 := by
  induction ds with
  | nil => intro tp al p0 hp0; simp only [processDeps] at hp0; exact Or.inl hp0
  | cons name ds ih =>
    intro tp al p0 hp0
    simp only [processDeps] at hp0
    by_cases hc : name ∈ al
    · rw [if_pos hc] at hp0
      rcases ih tp al p0 hp0 with h | ⟨n, hn, hr⟩
      · exact Or.inl h
      · exact Or.inr ⟨n, List.mem_cons_of_mem _ hn, hr⟩
    · rw [if_neg hc] at hp0
      rcases ih (pushResolved r name tp) (name :: al) p0 hp0 with h | ⟨n, hn, hr⟩
      · rcases (pushResolved_mem r name tp p0).mp h with h' | h'
        · exact Or.inr ⟨name, List.mem_cons_self _ _, h'⟩
        · exact Or.inl h'
      · exact Or.inr ⟨n, List.mem_cons_of_mem _ hn, hr⟩

theorem processDeps_new_resolved (r : String → Option String) (ds : List String) :
    ∀ tp al m q, m ∈ (processDeps r ds tp al).2 → m ∉ al → r m = some q →
      q ∈ (processDeps r ds tp al).1 := by
  induction ds with
  | nil =>
    intro tp al m q hm hmal _
    simp only [processDeps] at hm
    exact absurd hm hmal
  | cons name ds ih =>
    intro tp al m q hm hmal hr
    simp only [processDeps] at hm ⊢
    by_cases hc : name ∈ al
    · rw [if_pos hc] at hm ⊢
      exact ih tp al m q hm hmal hr
    · rw [if_neg hc] at hm ⊢
      by_cases hmn : m = name
      · subst hmn
        exact processDeps_tp_mono r ds (pushResolved r m tp) (m :: al) q
          ((pushResolved_mem r m tp q).mpr (Or.inl hr))
      · refine ih (pushResolved r name tp) (name :: al) m q hm ?_ hr
        intro hmem
        rcases List.mem_cons.mp hmem with h | h
        · exact hmn h
        · exact hmal h

theorem processDeps_nodup (r : String → Option String) (ds : List String) :
    ∀ tp al, al.Nodup → (processDeps r ds tp al).2.Nodup := by
  induction ds with
  | nil => intro tp al h; simpa [processDeps] using h
  | cons name ds ih =>
    intro tp al h
    simp only [processDeps]
    by_cases hc : name ∈ al
    · rw [if_pos hc]; exact ih tp al h
    · rw [if_neg hc]
      exact ih (pushResolved r name tp) (name :: al) (List.nodup_cons.mpr ⟨hc, h⟩)

/-- The main worklist invariant of get_all_dependencies: from a consistent
intermediate state, the final result set is exactly the reachable names (in
both directions), every extracted path has all its dependencies in the
result set, the seed was extracted, and both final sets are duplicate free. -/
theorem depLoop_main (tab : DepTab) (r : String → Option String) (seed : String)
    (tp processed al : List String) :
    (∀ q ∈ processed, ∀ n ∈ lookupDeps tab q, n ∈ al) →
    (∀ m ∈ al, ∀ q, r m = some q → q ∈ tp ∨ q ∈ processed) →
    (seed ∈ tp ∨ seed ∈ processed) →
    (∀ p ∈ tp, ReachPath tab r seed p) →
    (∀ n ∈ al, Reachable tab r seed n) →
    al.Nodup → processed.Nodup →
    (∀ q ∈ (depLoop tab r tp processed al).2, ∀ n ∈ lookupDeps tab q,
        n ∈ (depLoop tab r tp processed al).1) ∧
    (∀ m ∈ (depLoop tab r tp processed al).1, ∀ q, r m = some q →
        q ∈ (depLoop tab r tp processed al).2) ∧
    seed ∈ (depLoop tab r tp processed al).2 ∧
    (∀ n ∈ (depLoop tab r tp processed al).1, Reachable tab r seed n) ∧
    (depLoop tab r tp processed al).1.Nodup ∧
    (depLoop tab r tp processed al).2.Nodup := by
  induction tp, processed, al using depLoop.induct tab r with
  | case1 processed al =>
    intro hA hB hC hD hE hF hG
    simp only [depLoop]
    refine ⟨hA, ?_, ?_, hE, hF, hG⟩
    · intro m hm q hq
      rcases hB m hm q hq with h | h
      · cases h
      · exact h
    · rcases hC with h | h
      · cases h
      · exact h
  | case2 p rest processed al hc ih =>
    intro hA hB hC hD hE hF hG
    rw [depLoop, if_pos hc]
    apply ih hA
    · intro m hm q hq
      rcases hB m hm q hq with h | h
      · rcases List.mem_cons.mp h with rfl | h'
        · exact Or.inr hc
        · exact Or.inl h'
      · exact Or.inr h
    · rcases hC with h | h
      · rcases List.mem_cons.mp h with rfl | h'
        · exact Or.inr hc
        · exact Or.inl h'
      · exact Or.inr h
    · exact fun p0 hp0 => hD p0 (List.mem_cons_of_mem _ hp0)
    · exact hE
    · exact hF
    · exact hG
  | case3 p rest processed al hc ih =>
    intro hA hB hC hD hE hF hG
    rw [depLoop, if_neg hc]
    have hpOK : ReachPath tab r seed p := hD p (List.mem_cons_self _ _)
    apply ih
    · intro q hq n hn
      rcases List.mem_cons.mp hq with rfl | hq'
      · exact processDeps_names r (lookupDeps tab q) rest al n hn
      · exact processDeps_al_mono r (lookupDeps tab p) rest al n (hA q hq' n hn)
    · intro m hm q hq
      by_cases hmal : m ∈ al
      · rcases hB m hmal q hq with h | h
        · rcases List.mem_cons.mp h with rfl | h'
          · exact Or.inr (List.mem_cons_self _ _)
          · exact Or.inl (processDeps_tp_mono r (lookupDeps tab p) rest al q h')
        · exact Or.inr (List.mem_cons_of_mem _ h)
      · exact Or.inl (processDeps_new_resolved r (lookupDeps tab p) rest al m q hm hmal hq)
    · rcases hC with h | h
      · rcases List.mem_cons.mp h with h' | h'
        · exact Or.inr (by rw [h']; exact List.mem_cons_self _ _)
        · exact Or.inl (processDeps_tp_mono r (lookupDeps tab p) rest al seed h')
      · exact Or.inr (List.mem_cons_of_mem _ h)
    · intro p0 hp0
      rcases processDeps_tp_sub r (lookupDeps tab p) rest al p0 hp0 with h | ⟨n, hn, hr⟩
      · exact hD p0 (List.mem_cons_of_mem _ h)
      · exact Or.inr ⟨n, reach_of_reachPath hpOK hn, hr⟩
    · intro n hn
      rcases processDeps_al_sub r (lookupDeps tab p) rest al n hn with h | h
      · exact hE n h
      · exact reach_of_reachPath hpOK h
    · exact processDeps_nodup r (lookupDeps tab p) rest al hF
    · exact List.nodup_cons.mpr ⟨hc, hG⟩

theorem closure_sound (tab : DepTab) (r : String → Option String) (seed : String) :
    ∀ n ∈ get_all_dependencies tab r seed, Reachable tab r seed n := by
  have h := depLoop_main tab r seed [seed] [] []
    (by intro q hq; cases hq)
    (by intro m hm; cases hm)
    (Or.inl (List.mem_cons_self _ _))
    (by intro p hp
        rcases List.mem_cons.mp hp with rfl | h
        · exact Or.inl rfl
        · cases h)
    (by intro n hn; cases hn)
    List.nodup_nil List.nodup_nil
  exact h.2.2.2.1

theorem closure_complete (tab : DepTab) (r : String → Option String) (seed : String) :
    ∀ n, Reachable tab r seed n → n ∈ get_all_dependencies tab r seed := by
  have h := depLoop_main tab r seed [seed] [] []
    (by intro q hq; cases hq)
    (by intro m hm; cases hm)
    (Or.inl (List.mem_cons_self _ _))
    (by intro p hp
        rcases List.mem_cons.mp hp with rfl | h
        · exact Or.inl rfl
        · cases h)
    (by intro n hn; cases hn)
    List.nodup_nil List.nodup_nil
  obtain ⟨hR1, hR2, hR3, -, -, -⟩ := h
  intro n hn
  induction hn with
  | seed hmem => exact hR1 seed hR3 _ hmem
  | step hm hr hmem ih => exact hR1 _ (hR2 _ ih _ hr) _ hmem

theorem closure_nodup (tab : DepTab) (r : String → Option String) (seed : String) :
    (get_all_dependencies tab r seed).Nodup := by
  have h := depLoop_main tab r seed [seed] [] []
    (by intro q hq; cases hq)
    (by intro m hm; cases hm)
    (Or.inl (List.mem_cons_self _ _))
    (by intro p hp
        rcases List.mem_cons.mp hp with rfl | h
        · exact Or.inl rfl
        · cases h)
    (by intro n hn; cases hn)
    List.nodup_nil List.nodup_nil
  exact h.2.2.2.2.1

theorem extracted_nodup (tab : DepTab) (r : String → Option String) (seed : String) :
    (extractedPaths tab r seed).Nodup := by
  have h := depLoop_main tab r seed [seed] [] []
    (by intro q hq; cases hq)
    (by intro m hm; cases hm)
    (Or.inl (List.mem_cons_self _ _))
    (by intro p hp
        rcases List.mem_cons.mp hp with rfl | h
        · exact Or.inl rfl
        · cases h)
    (by intro n hn; cases hn)
    List.nodup_nil List.nodup_nil
  exact h.2.2.2.2.2

end LevisoElf

namespace LevisoElf

/- ===== File-system model ===== -/

/-- A finite file-system tree: regular files carry their byte content,
symlinks carry their target text, directories carry a finite list of named
children (real directories have no duplicate names; theorems assume or
construct duplicate-free entry lists). -/
inductive Node where
  | file (content : String)
  | symlink (target : String)
  | dir (entries : List (String × Node))
deriving Repr

/-- A path below some root, as a list of components. -/
abbrev FPath := List String

/-- Directory entry lookup by name (first match). -/
def findEntry (es : List (String × Node)) (name : String) : Option Node :=
  match es.find? (fun e => e.1 == name) with
  | some e => some e.2
  | none => none

/-- Replace the entry of the given name, or append it at the end. -/
def setEntry (es : List (String × Node)) (name : String) (n : Node) :
    List (String × Node) :=
  match es with
  | [] => [(name, n)]
  | (k, v) :: rest =>
    if k == name then (k, n) :: rest else (k, v) :: setEntry rest name n

/-- Remove the entry of the given name (first occurrence). -/
def eraseEntry (es : List (String × Node)) (name : String) : List (String × Node) :=
  match es with
  | [] => []
  | (k, v) :: rest => if k == name then rest else (k, v) :: eraseEntry rest name

/-- Walk a path through directory entries, without following symlinks
(the lstat view of the final component). -/
def lookup (t : Node) : FPath → Option Node
  | [] => some t
  | c :: cs =>
    match t with
    | .dir es =>
      match findEntry es c with
      | some child => lookup child cs
      | none => none
    | _ => none

/-- The Linux limit on followed symlinks during one resolution. -/
def MAXSYMLINKS : Nat := 40

/-- Resolve a path, following a chain of symlinks at the final component, a
relative target being interpreted against the directory of the link.  Fuel
bounds the chain length as the kernel does (ELOOP yields none). -/
def resolveNode (t : Node) : Nat → FPath → Option Node
  | 0, _ => none
  | fuel + 1, p =>
    match lookup t p with
    | some (.symlink tgt) => resolveNode t fuel (p.dropLast ++ splitPath tgt)
    | r => r

/-- Rust Path::exists: resolution succeeds (a dangling symlink does not exist). -/
def existsB (t : Node) (p : FPath) : Bool := (resolveNode t MAXSYMLINKS p).isSome

/-- Rust Path::is_symlink: the entry itself is a symlink (no following). -/
def isSymlinkB (t : Node) (p : FPath) : Bool :=
  match lookup t p with
  | some (.symlink _) => true
  | _ => false

/-- Render a path with the separator, for the string matching done by
copy_library_to on the path text. -/
def joinPath : FPath → String
  | [] => ""
  | [c] => c
  | c :: cs => c ++ "/" ++ joinPath cs

/-- Rust Path::is_relative on Unix is the absence of a leading separator. -/
def startsWithSlash (s : String) : Bool :=
  match s.data with
  | '/' :: _ => true
  | _ => false

/-- Write a node at a path: all intermediate components must exist as
directories, and the final position must not hold a directory (fs::copy
and symlink creation both fail on a directory); an existing file or
symlink entry is replaced.  (fs::copy onto a path occupied by a symlink in
reality writes through the link; the theorems below never copy onto a
symlink-occupied name.) -/
def setAt : Node → FPath → Node → Option Node
  | .dir es, [c], n =>
    match findEntry es c with
    | some (.dir _) => none
    | _ => some (.dir (setEntry es c n))
  | .dir es, c :: c2 :: cs, n =>
    match findEntry es c with
    | some child =>
      match setAt child (c2 :: cs) n with
      | some child2 => some (.dir (setEntry es c child2))
      | none => none
    | none => none
  | _, _, _ => none

/-- Embedding of fs::create_dir_all: create every missing directory along
the path; fails (none) if a non-directory entry is in the way. -/
def mkdirAll : Node → FPath → Option Node
  | t, [] => some t
  | .dir es, c :: cs =>
    match findEntry es c with
    | some (.dir es2) =>
      match mkdirAll (.dir es2) cs with
      | some d => some (.dir (setEntry es c d))
      | none => none
    | some _ => none
    | none =>
      match mkdirAll (.dir []) cs with
      | some d => some (.dir (setEntry es c d))
      | none => none
  | _, _ => none

/-- Read the content of the regular file a path resolves to (fs::copy
follows symlinks on the source side). -/
def readFileB (t : Node) (p : FPath) : Option String :=
  match resolveNode t MAXSYMLINKS p with
  | some (.file c) => some c
  | _ => none

/-- Embedding of fs::copy from a path of the source tree to a path of the
destination tree: read the resolved source file, write it at the
destination path. -/
def fs_copy (srcT : Node) (p : FPath) (dstT : Node) (q : FPath) : Except String Node :=
  match readFileB srcT p with
  | none => .error ("fs::copy failed to read " ++ joinPath p)
  | some c =>
    match setAt dstT q (.file c) with
    | none => .error ("fs::copy failed to write " ++ joinPath q)
    | some t2 => .ok t2

/- ===== src/paths.rs : find_library ===== -/

/-- The ordered candidate list of find_library (paths.rs lines 15-28):
the four standard locations, the two systemd private locations, then each
caller-supplied extra path in order; every candidate is the location joined
with the library name. -/
def libCandidates (lib_name : String) (extra_paths : List String) : List FPath :=
  [["usr", "lib64", lib_name],
   ["lib64", lib_name],
   ["usr", "lib", lib_name],
   ["lib", lib_name],
   ["usr", "lib64", "systemd", lib_name],
   ["usr", "lib", "systemd", lib_name]]
  ++ extra_paths.map (fun e => splitPath e ++ [lib_name])

/-- The match test of find_library (paths.rs line 32): the candidate exists
or is a symlink. -/
def libMatch (t : Node) (p : FPath) : Bool := existsB t p || isSymlinkB t p

/-- Embedding of find_library (paths.rs lines 13-33): the first matching
candidate, as a path relative to the source root. -/
def find_library (source_root : Node) (lib_name : String)
    (extra_paths : List String) : Option FPath :=
  (libCandidates lib_name extra_paths).find? (fun p => libMatch source_root p)

/- ===== src/copy.rs : copy_library_to ===== -/

/-- Embedding of the destination choice of copy_library_to (copy.rs lines
101-116): render the resolved source path, pick a private subdirectory
whose marker occurs in the rendered text (creating it), else split on
whether the text contains the 64-bit marker.  Returns the possibly updated
destination tree and the destination path. -/
def computeDest (source_root_str : String) (src : FPath) (dest_root : Node)
    (dest_lib64_path dest_lib_path : String) (private_lib_dirs : List String)
    (lib_name : String) : Except String (Node × FPath) :=
  let src_str := source_root_str ++ "/" ++ joinPath src
  match private_lib_dirs.find? (fun d =>
      strContains src_str ("lib64/" ++ d) || strContains src_str ("lib/" ++ d)) with
  | some d =>
    let dest_dir := splitPath dest_lib64_path ++ [d]
    match mkdirAll dest_root dest_dir with
    | none => .error ("fs::create_dir_all failed at " ++ joinPath dest_dir)
    | some t2 => .ok (t2, dest_dir ++ [lib_name])
  | none =>
    if strContains src_str "lib64" then
      .ok (dest_root, splitPath dest_lib64_path ++ [lib_name])
    else
      .ok (dest_root, splitPath dest_lib_path ++ [lib_name])

/-- Embedding of copy_library_to (copy.rs lines 85-155).  The source tree
is read only; the returned tree is the destination tree after the call.
The quotes of the Rust error message around the library name are omitted. -/
def copy_library_to (source_root_str : String) (source_root : Node)
    (lib_name : String) (dest_root : Node)
    (dest_lib64_path dest_lib_path : String)
    (extra_lib_paths private_lib_dirs : List String) : Except String Node :=
  match find_library source_root lib_name extra_lib_paths with
  | none => .error ("Could not find library " ++ lib_name ++
      " in source (searched lib64, lib, extra paths)")
  | some src =>
    match computeDest source_root_str src dest_root dest_lib64_path dest_lib_path
        private_lib_dirs lib_name with
    | .error e => .error e
    | .ok (t1, dest_path) =>
      if existsB t1 dest_path then .ok t1
      else
        match lookup source_root src with
        | some (.symlink link_target) =>
          let actual_src :=
            if startsWithSlash link_target = false then
              src.dropLast ++ splitPath link_target
            else
              splitPath link_target
          if existsB source_root actual_src then
            let target_name :=
              match (splitPath link_target).getLast? with
              | some n => n
              | none => link_target
            let target_dest := dest_path.dropLast ++ [target_name]
            match (if existsB t1 target_dest then .ok t1
                else fs_copy source_root actual_src t1 target_dest :
                  Except String Node) with
            | .error e => .error e
            | .ok t2 =>
              if existsB t2 dest_path then .ok t2
              else
                match lookup t2 dest_path with
                | some _ => .error ("symlink failed: File exists at " ++ joinPath dest_path)
                | none =>
                  match setAt t2 dest_path (.symlink link_target) with
                  | none => .error ("symlink failed at " ++ joinPath dest_path)
                  | some t3 => .ok t3
          else
            fs_copy source_root src t1 dest_path
        | _ => fs_copy source_root src t1 dest_path

/- ===== src/copy.rs : copy_dir_recursive ===== -/

mutual

/-- Embedding of copy_dir_recursive_impl (copy.rs lines 42-75).  The first
argument is the node at the source path (none when the path does not
exist), the second the node at the destination path.  Returns the new
destination node together with the total copied byte count.  A source
entry is treated as a directory, a symlink or a regular file by its own
constructor (the Rust code, which tests is_dir before is_symlink, agrees
on every tree whose symlinks point at non-directories). -/
def copy_dir_recursive_impl (src : Option Node) (dst : Option Node) (overwrite : Bool) :
    Except String (Option Node × Nat) :=
  match src with
  | some (.dir es) =>
    match dst with
    | some (.file _) => .error "fs::create_dir_all failed"
    | some (.symlink _) => .error "fs::create_dir_all failed"
    | some (.dir dstEs) =>
      match copyDirEntries es dstEs overwrite with
      | .error e => .error e
      | .ok (es2, n) => .ok (some (.dir es2), n)
    | none =>
      match copyDirEntries es [] overwrite with
      | .error e => .error e
      | .ok (es2, n) => .ok (some (.dir es2), n)
  | _ => .ok (dst, 0)

/-- The read_dir loop of copy_dir_recursive_impl (copy.rs lines 51-72),
walking the source entries in order against the destination entry list. -/
def copyDirEntries (es : List (String × Node)) (dstEs : List (String × Node))
    (overwrite : Bool) : Except String (List (String × Node) × Nat) :=
  match es with
  | [] => .ok (dstEs, 0)
  | (name, .dir subEs) :: rest =>
    match copy_dir_recursive_impl (some (.dir subEs)) (findEntry dstEs name) overwrite with
    | .error e => .error e
    | .ok (newChild, n1) =>
      let dstEs1 := match newChild with
        | some c => setEntry dstEs name c
        | none => dstEs
      match copyDirEntries rest dstEs1 overwrite with
      | .error e => .error e
      | .ok (dstEs2, n2) => .ok (dstEs2, n1 + n2)
  | (name, .symlink t) :: rest =>
    let step : Except String (List (String × Node)) :=
      if overwrite && (findEntry dstEs name).isSome then
        match findEntry dstEs name with
        | some (.dir _) => .error "fs::remove_file failed: Is a directory"
        | _ => .ok (eraseEntry dstEs name)
      else .ok dstEs
    match step with
    | .error e => .error e
    | .ok d1 =>
      let d2 := if (findEntry d1 name).isSome then d1 else d1 ++ [(name, .symlink t)]
      copyDirEntries rest d2 overwrite
  | (name, .file c) :: rest =>
    match findEntry dstEs name with
    | some (.dir _) => .error "fs::copy failed: Is a directory"
    | _ =>
      match copyDirEntries rest (setEntry dstEs name (.file c)) overwrite with
      | .error e => .error e
      | .ok (dstEs2, n2) => .ok (dstEs2, c.length + n2)

end

/-- Embedding of copy_dir_recursive (copy.rs lines 27-29). -/
def copy_dir_recursive (src dst : Option Node) : Except String (Option Node × Nat) :=
  copy_dir_recursive_impl src dst false

/-- Embedding of copy_dir_recursive_overwrite (copy.rs lines 37-39). -/
def copy_dir_recursive_overwrite (src dst : Option Node) :
    Except String (Option Node × Nat) :=
  copy_dir_recursive_impl src dst true

end LevisoElf

namespace LevisoElf

/- ===== Claim C10 ===== -/

/-- C10: For every source path that is not a directory (missing, a regular
file, or a symlink), copy_dir_recursive and copy_dir_recursive_overwrite
return success with a byte count of 0 and leave the destination untouched
(the destination directory is not even created). -/
theorem claim_C10 (dst : Option Node) (c t : String) :
    copy_dir_recursive none dst = .ok (dst, 0) ∧
    copy_dir_recursive (some (.file c)) dst = .ok (dst, 0) ∧
    copy_dir_recursive (some (.symlink t)) dst = .ok (dst, 0) ∧
    copy_dir_recursive_overwrite none dst = .ok (dst, 0) ∧
    copy_dir_recursive_overwrite (some (.file c)) dst = .ok (dst, 0) ∧
    copy_dir_recursive_overwrite (some (.symlink t)) dst = .ok (dst, 0) := by
  refine ⟨?_, ?_, ?_, ?_, ?_, ?_⟩ <;>
    simp [copy_dir_recursive, copy_dir_recursive_overwrite, copy_dir_recursive_impl]

/- ===== Claim C5 ===== -/

/-- C5: get_library_dependencies distinguishes three outcomes: a missing
path fails with an error carrying that path (never an empty list); an
existing file on which the tool exits non-zero with a recognized
not-an-ELF signature in stderr yields success with an empty list; any
other non-zero exit fails with an error carrying the trimmed stderr. -/
theorem claim_C5 :
    (∀ path run, get_library_dependencies path false run =
        some (.error ("File does not exist: " ++ path))) ∧
    (∀ path out, out.success = false →
        (strContains out.stderr "Not an ELF file"
          || strContains out.stderr "not a dynamic executable"
          || strContains out.stderr "File format not recognized") = true →
        get_library_dependencies path true (some out) = some (.ok [])) ∧
    (∀ path out, out.success = false →
        (strContains out.stderr "Not an ELF file"
          || strContains out.stderr "not a dynamic executable"
          || strContains out.stderr "File format not recognized") = false →
        get_library_dependencies path true (some out) =
          some (.error ("readelf failed on " ++ path ++ ": " ++ rustTrim out.stderr))) := by
  refine ⟨?_, ?_, ?_⟩
  · intro path run
    simp [get_library_dependencies]
  · intro path out hs hsig
    simp [get_library_dependencies, hs, hsig]
  · intro path out hs hsig
    simp [get_library_dependencies, hs, hsig]

/-- Witness for C5: the three outcomes at concrete inputs. -/
theorem claim_C5_witness :
    get_library_dependencies "bin/app" false none =
        some (.error "File does not exist: bin/app") ∧
    get_library_dependencies "bin/app" true
        (some ⟨false, "", "readelf: Error: Not an ELF file"⟩) = some (.ok []) ∧
    get_library_dependencies "bin/app" true
        (some ⟨false, "", " permission denied \n"⟩) =
      some (.error "readelf failed on bin/app: permission denied") :=
  ⟨claim_C5.1 "bin/app" none,
   claim_C5.2.1 "bin/app" ⟨false, "", "readelf: Error: Not an ELF file"⟩ rfl (by decide),
   by
     have h := claim_C5.2.2 "bin/app" ⟨false, "", " permission denied \n"⟩ rfl (by decide)
     rw [h]
     rfl⟩

/- ===== Claim C7 ===== -/

/-- C7: the claim states parse_readelf_output is total and never aborts,
skipping lines where a close bracket precedes the first open bracket.  On
such a line the Rust code instead panics: the byte slice
line[start+1..end] is taken with start+1 greater than end.  The model
value none is that panic, so the claim fails on this input. -/
theorem claim_C7 :
    parse_readelf_output " 0x1 (NEEDED)  Shared library: ] [libx.so]" = none := by
  rfl

/- ===== Claim C1 ===== -/

/-- C1: for every dependency environment (finite table of extracted NEEDED
lists and a resolver), the set returned by get_all_dependencies contains
every name reachable from the seed by a finite chain of needed edges,
contains only such names, and contains each exactly once (no duplicates)
regardless of how many paths reach it; an unresolved name is still in the
set (reachability does not require resolvability of the final name) but
contributes no further traversal (only resolved names extend chains). -/
theorem claim_C1 (tab : DepTab) (r : String → Option String) (seed : String) :
    (∀ n, Reachable tab r seed n → n ∈ get_all_dependencies tab r seed) ∧
    (∀ n, n ∈ get_all_dependencies tab r seed → Reachable tab r seed n) ∧
    (get_all_dependencies tab r seed).Nodup :=
  ⟨closure_complete tab r seed, closure_sound tab r seed, closure_nodup tab r seed⟩

/-- Witness for C1: a seed with one unresolvable dependency; the name is
reachable and is in the returned set. -/
theorem claim_C1_witness :
    Reachable [("bin/app", ["libmissing.so"])] (fun _ => none) "bin/app" "libmissing.so" ∧
    "libmissing.so" ∈ get_all_dependencies [("bin/app", ["libmissing.so"])]
      (fun _ => none) "bin/app" := by
  have hr : Reachable [("bin/app", ["libmissing.so"])] (fun _ => none) "bin/app"
      "libmissing.so" := .seed (by decide)
  exact ⟨hr, (claim_C1 [("bin/app", ["libmissing.so"])] (fun _ => none) "bin/app").1 _ hr⟩

/- ===== Claim C2 ===== -/

/-- The synthetic two-node cycle: library A needs B, library B needs A. -/
def cycleTab : DepTab := [("/lib/A", ["B"]), ("/lib/B", ["A"])]

/-- Resolver of the two-node cycle. -/
def cycleResolve : String → Option String :=
  fun n => if n == "A" then some "/lib/A" else if n == "B" then some "/lib/B" else none

/-- C2: get_all_dependencies terminates on every finite dependency graph
(the embedding is a total function, proved terminating by the strictly
shrinking measure over the finite name set); each path is extracted at
most once via the visited set (the final visited set never holds a path
twice); and on the synthetic two-node cycle the call returns exactly the
set of the two names. -/
theorem claim_C2 :
    (∀ tab r seed, (extractedPaths tab r seed).Nodup) ∧
    (∀ n, n ∈ get_all_dependencies cycleTab cycleResolve "/lib/A" ↔
        (n = "A" ∨ n = "B")) := by
  refine ⟨extracted_nodup, ?_⟩
  have heval : get_all_dependencies cycleTab cycleResolve "/lib/A" = ["A", "B"] := by
    simp [get_all_dependencies, depLoop, processDeps, pushResolved, lookupDeps,
      cycleTab, cycleResolve]
  intro n
  rw [heval]
  simp

end LevisoElf

namespace LevisoElf

/- ===== Claim C4 ===== -/

/-- The six fixed standard candidates of find_library, in precedence order. -/
def fixedCandidates (lib_name : String) : List FPath :=
  [["usr", "lib64", lib_name],
   ["lib64", lib_name],
   ["usr", "lib", lib_name],
   ["lib", lib_name],
   ["usr", "lib64", "systemd", lib_name],
   ["usr", "lib", "systemd", lib_name]]

/-- C4: find_library returns the first candidate that exists or is a
symlink, over the fixed ordered candidate list usr/lib64, lib64, usr/lib,
lib, the 64-bit and generic private (systemd) subdirectories, then the
caller-supplied extra paths in the order given; a returned path is a
matching candidate all of whose predecessors fail the test, absence of any
match gives none (never an error), and whenever some fixed standard
candidate matches, the extra paths cannot influence the result. -/
theorem claim_C4 (t : Node) (lib : String) (extras : List String) :
    (libCandidates lib extras =
      fixedCandidates lib ++ extras.map (fun e => splitPath e ++ [lib])) ∧
    (∀ p, find_library t lib extras = some p ↔
      (libMatch t p = true ∧ ∃ pre suf, libCandidates lib extras = pre ++ p :: suf ∧
        ∀ q ∈ pre, libMatch t q = false)) ∧
    (find_library t lib extras = none ↔
      ∀ p ∈ libCandidates lib extras, libMatch t p = false) ∧
    ((∃ q ∈ fixedCandidates lib, libMatch t q = true) →
      find_library t lib extras = find_library t lib []) := by
  refine ⟨rfl, ?_, ?_, ?_⟩
  · intro p
    rw [find_library, List.find?_eq_some]
    constructor
    · rintro ⟨hp, pre, suf, heq, hpre⟩
      exact ⟨hp, pre, suf, heq, fun q hq => by simpa using hpre q hq⟩
    · rintro ⟨hp, pre, suf, heq, hpre⟩
      exact ⟨hp, pre, suf, heq, fun q hq => by simpa using hpre q hq⟩
  · rw [find_library, List.find?_eq_none]
    constructor
    · intro h p hp
      simpa using h p hp
    · intro h p hp
      simpa using h p hp
  · rintro ⟨q, hq, hmatch⟩
    have hfix : (fixedCandidates lib).find? (fun p => libMatch t p) ≠ none := by
      intro hnone
      rw [List.find?_eq_none] at hnone
      exact absurd hmatch (by simpa using hnone q hq)
    unfold find_library libCandidates
    unfold fixedCandidates at hfix
    rw [List.find?_append, List.find?_append]
    cases hf : ([["usr", "lib64", lib], ["lib64", lib], ["usr", "lib", lib], ["lib", lib],
        ["usr", "lib64", "systemd", lib], ["usr", "lib", "systemd", lib]] :
          List FPath).find? (fun p => libMatch t p) with
    | none => exact absurd hf hfix
    | some v => simp

/-- Witness for C4: a tree where a fixed standard location and an extra
location both hold the library; the fixed location wins and extras do not
change the result. -/
theorem claim_C4_witness :
    find_library
      (Node.dir [("usr", .dir [("lib64", .dir [("x.so", .file "A")])]),
                 ("opt", .dir [("x.so", .file "B")])]) "x.so" ["opt"] =
    find_library
      (Node.dir [("usr", .dir [("lib64", .dir [("x.so", .file "A")])]),
                 ("opt", .dir [("x.so", .file "B")])]) "x.so" [] :=
  (claim_C4 (Node.dir [("usr", .dir [("lib64", .dir [("x.so", .file "A")])]),
      ("opt", .dir [("x.so", .file "B")])]) "x.so" ["opt"]).2.2.2
    ⟨["usr", "lib64", "x.so"], by decide, by rfl⟩

end LevisoElf

namespace LevisoElf

/- ===== Claim C6 ===== -/

theorem findIdx?_first_aux {c : Char} :
    ∀ (pre suf : List Char) (i : Nat), (∀ x ∈ pre, (x == c) = false) →
      List.findIdx? (fun x => x == c) (pre ++ c :: suf) i = some (i + pre.length) := by
  intro pre
  induction pre with
  | nil =>
    intro suf i _
    simp [List.findIdx?_cons]
  | cons x xs ih =>
    intro suf i h
    have hx : (x == c) = false := h x (List.mem_cons_self _ _)
    simp only [List.cons_append, List.findIdx?_cons, hx, Bool.false_eq_true, if_false]
    rw [ih suf (i + 1) (fun y hy => h y (List.mem_cons_of_mem _ hy))]
    simp only [List.length_cons]
    congr 1
    omega

theorem findIdx?_first {c : Char} (pre suf : List Char)
    (h : ∀ x ∈ pre, (x == c) = false) :
    List.findIdx? (fun x => x == c) (pre ++ c :: suf) = some pre.length := by
  simpa using findIdx?_first_aux pre suf 0 h

/-- C6 counterexample: this line contains both marker tokens, and has a
close bracket before its first open bracket followed by a further close
bracket; the claim says it yields exactly the substring between the first
open bracket and the first close bracket following it (libc.so.6), but the
code takes the first close bracket of the whole line and panics on the
inverted byte range (modelled by none). -/
theorem claim_C6_counterexample :
    parse_readelf_output " 0x01 (NEEDED) Shared library: ]junk[libc.so.6]" = none := by
  rfl

theorem parseLinesGo_total (ls : List String)
    (h : ∀ l ∈ ls, extractLib l ≠ none) :
    parseLinesGo ls = some (ls.filterMap (fun l => (extractLib l).getD none)) := by
  induction ls with
  | nil => rfl
  | cons l ls ih =>
    have hl : extractLib l ≠ none := h l (List.mem_cons_self _ _)
    have hls := ih (fun x hx => h x (List.mem_cons_of_mem _ hx))
    cases he : extractLib l with
    | none => exact absurd he hl
    | some o =>
      simp only [parseLinesGo, he, hls, List.filterMap_cons]
      cases o with
      | none => simp
      | some nme => simp

/-- C6 (amended): a line failing the conjunction of the two marker tests
contributes no entry; a line containing both markers, decomposed around
its first open bracket and around the first close bracket following it,
with no close bracket preceding the open bracket, yields exactly the
substring strictly between them; and on inputs where no line panics, the
output is the in-order filterMap of the per-line extraction, so output
order matches input line order and duplicates are preserved.  (The
amendment excludes lines with a close bracket before the first open
bracket: on those the code panics, see the counterexample.) -/
theorem claim_C6 :
    (∀ line : String,
      (strContains line "(NEEDED)" && strContains line "Shared library:") = false →
      extractLib line = some none) ∧
    (∀ pre nm suf : List Char,
      (strContains (String.mk (pre ++ '[' :: (nm ++ ']' :: suf))) "(NEEDED)" &&
        strContains (String.mk (pre ++ '[' :: (nm ++ ']' :: suf))) "Shared library:") = true →
      '[' ∉ pre → ']' ∉ pre → ']' ∉ nm →
      extractLib (String.mk (pre ++ '[' :: (nm ++ ']' :: suf))) = some (some (String.mk nm))) ∧
    (∀ out : String, (∀ l ∈ rustLines out, extractLib l ≠ none) →
      parse_readelf_output out =
        some ((rustLines out).filterMap (fun l => (extractLib l).getD none))) := by
  refine ⟨?_, ?_, ?_⟩
  · intro line h
    simp [extractLib, h]
  · intro pre nm suf hmarks hopen hclose hclosenm
    have hdata : (String.mk (pre ++ '[' :: (nm ++ ']' :: suf))).data
        = pre ++ '[' :: (nm ++ ']' :: suf) := rfl
    have hs : List.findIdx? (fun c => c == '[') (pre ++ '[' :: (nm ++ ']' :: suf))
        = some pre.length :=
      findIdx?_first pre _ (fun x hx => by
        simp only [beq_eq_false_iff_ne]
        intro hxe
        exact hopen (hxe ▸ hx))
    have hassoc : pre ++ '[' :: (nm ++ ']' :: suf)
        = (pre ++ '[' :: nm) ++ ']' :: suf := by
      simp [List.append_assoc]
    have he : List.findIdx? (fun c => c == ']') (pre ++ '[' :: (nm ++ ']' :: suf))
        = some (pre ++ '[' :: nm).length := by
      rw [hassoc]
      refine findIdx?_first _ _ ?_
      intro x hx
      simp only [beq_eq_false_iff_ne]
      intro hxe
      subst hxe
      rcases List.mem_append.mp hx with h | h
      · exact hclose h
      · rcases List.mem_cons.mp h with h' | h'
        · cases h'
        · exact hclosenm h'
    have hlen : (pre ++ '[' :: nm).length = pre.length + 1 + nm.length := by
      simp only [List.length_append, List.length_cons]
      omega
    simp only [extractLib, if_pos hmarks, hdata, hs, he]
    have hle : pre.length + 1 ≤ (pre ++ '[' :: nm).length := by omega
    rw [if_pos hle]
    have hdrop : (pre ++ '[' :: (nm ++ ']' :: suf)).drop (pre.length + 1)
        = nm ++ ']' :: suf := by
      have : pre ++ '[' :: (nm ++ ']' :: suf) = (pre ++ ['[']) ++ (nm ++ ']' :: suf) := by
        simp
      rw [this]
      have hlen2 : (pre ++ ['[']).length = pre.length + 1 := by simp
      rw [← hlen2, List.drop_left]
    rw [hdrop]
    have htake : (nm ++ ']' :: suf).take ((pre ++ '[' :: nm).length - (pre.length + 1))
        = nm := by
      have : (pre ++ '[' :: nm).length - (pre.length + 1) = nm.length := by omega
      rw [this, List.take_left]
    rw [htake]
  · intro out h
    exact parseLinesGo_total (rustLines out) h

/-- Witness for C6: instantiations of the three parts at concrete lines. -/
theorem claim_C6_witness :
    extractLib " 0x0c (INIT)  0x5000" = some none ∧
    extractLib (String.mk (" 0x01 (NEEDED)  Shared library: ".data ++
      '[' :: ("libc.so.6".data ++ ']' :: []))) = some (some (String.mk "libc.so.6".data)) ∧
    parse_readelf_output " 0x01 (NEEDED)  Shared library: [libc.so.6]"
      = some ((rustLines " 0x01 (NEEDED)  Shared library: [libc.so.6]").filterMap
          (fun l => (extractLib l).getD none)) :=
  ⟨claim_C6.1 " 0x0c (INIT)  0x5000" (by decide),
   claim_C6.2.1 " 0x01 (NEEDED)  Shared library: ".data "libc.so.6".data []
     (by decide) (by decide) (by decide) (by decide),
   claim_C6.2.2 " 0x01 (NEEDED)  Shared library: [libc.so.6]"
     (by intro l hl; fin_cases hl <;> decide)⟩

end LevisoElf

namespace LevisoElf

/- ===== Entry-list lemmas ===== -/

theorem findEntry_setEntry_self (es : List (String × Node)) (name : String) (n : Node) :
    findEntry (setEntry es name n) name = some n := by
  induction es with
  | nil => simp [setEntry, findEntry, List.find?]
  | cons e rest ih =>
    obtain ⟨k, v⟩ := e
    by_cases hk : k == name
    · simp [setEntry, hk, findEntry, List.find?]
    · simp only [setEntry, hk, Bool.false_eq_true, if_false]
      simp only [findEntry, List.find?, hk] at ih ⊢
      exact ih

theorem findEntry_setEntry_ne (es : List (String × Node)) (name x : String) (n : Node)
    (hx : (x == name) = false) :
    findEntry (setEntry es name n) x = findEntry es x := by
  induction es with
  | nil =>
    have hnx : (name == x) = false := by
      simp only [beq_eq_false_iff_ne] at hx ⊢
      exact fun h => hx h.symm
    simp [setEntry, findEntry, List.find?, hnx]
  | cons e rest ih =>
    obtain ⟨k, v⟩ := e
    by_cases hk : k == name
    · have hkx : (k == x) = false := by
        simp only [beq_iff_eq] at hk
        simp only [beq_eq_false_iff_ne] at hx ⊢
        exact fun h => hx (h ▸ hk ▸ rfl)
      simp [setEntry, hk, findEntry, List.find?, hkx]
    · simp only [setEntry, hk, Bool.false_eq_true, if_false]
      simp only [findEntry, List.find?] at ih ⊢
      cases hkx : k == x with
      | true => rfl
      | false => exact ih

theorem findEntry_eraseEntry_self (es : List (String × Node)) (name : String)
    (hk : (es.map Prod.fst).Nodup) :
    findEntry (eraseEntry es name) name = none := by
  induction es with
  | nil => simp [eraseEntry, findEntry, List.find?]
  | cons e rest ih =>
    obtain ⟨k, v⟩ := e
    simp only [List.map_cons, List.nodup_cons] at hk
    by_cases hkn : k == name
    · simp only [eraseEntry, hkn, if_true]
      simp only [beq_iff_eq] at hkn
      subst hkn
      rw [findEntry]
      have hnone : rest.find? (fun e => e.1 == k) = none := by
        rw [List.find?_eq_none]
        intro e he hbeq
        rw [beq_iff_eq] at hbeq
        exact hk.1 (hbeq ▸ List.mem_map_of_mem Prod.fst he)
      rw [hnone]
    · simp only [eraseEntry, hkn, Bool.false_eq_true, if_false]
      simp only [findEntry, List.find?, hkn]
      exact ih hk.2

theorem findEntry_append_right (es : List (String × Node)) (name : String) (n : Node)
    (h : findEntry es name = none) :
    findEntry (es ++ [(name, n)]) name = some n := by
  have hf : es.find? (fun e => e.1 == name) = none := by
    cases hf : es.find? (fun e => e.1 == name) with
    | none => rfl
    | some e => rw [findEntry, hf] at h; cases h
  rw [findEntry, List.find?_append, hf]
  simp [List.find?]

/- ===== Claim C9 ===== -/

/-- C9 counterexample: under the overwrite policy, a destination entry
that is a directory at the name of a source symlink is not removed and
replaced, as the claim states; fs::remove_file fails on a directory and
the copy aborts with that error. -/
theorem claim_C9_counterexample :
    copy_dir_recursive_overwrite (some (.dir [("n", .symlink "a")]))
        (some (.dir [("n", .dir [])]))
      = .error "fs::remove_file failed: Is a directory" := by
  simp [copy_dir_recursive_overwrite, copy_dir_recursive_impl, copyDirEntries, findEntry,
    List.find?]

/-- C9 (amended): in the recursive directory copy, a regular source file
is always copied, overwriting any existing destination file at that name,
under both policies; a source symlink under the preserve policy leaves any
existing destination entry at that name untouched (keeping its original
target even when the source symlink differs); under the overwrite policy
an existing destination file or symlink at that name is removed and the
symlink recreated with the source target, while an existing destination
directory at that name makes the copy fail with the remove_file error
(the amendment: directories are not silently replaced). -/
theorem claim_C9 :
    (∀ (ow : Bool) (name c : String) (dstEs : List (String × Node)),
      (findEntry dstEs name = none ∨ ∃ c0, findEntry dstEs name = some (.file c0)) →
      copy_dir_recursive_impl (some (.dir [(name, .file c)])) (some (.dir dstEs)) ow
        = .ok (some (.dir (setEntry dstEs name (.file c))), c.length) ∧
      findEntry (setEntry dstEs name (.file c)) name = some (.file c)) ∧
    (∀ (name t : String) (dstEs : List (String × Node)) (e : Node),
      findEntry dstEs name = some e →
      copy_dir_recursive (some (.dir [(name, .symlink t)])) (some (.dir dstEs))
        = .ok (some (.dir dstEs), 0)) ∧
    (∀ (name t : String) (dstEs : List (String × Node)),
      (dstEs.map Prod.fst).Nodup →
      (findEntry dstEs name = none ∨ (∃ c0, findEntry dstEs name = some (.file c0)) ∨
        (∃ t0, findEntry dstEs name = some (.symlink t0))) →
      ∃ es2, copy_dir_recursive_overwrite (some (.dir [(name, .symlink t)]))
          (some (.dir dstEs)) = .ok (some (.dir es2), 0) ∧
        findEntry es2 name = some (.symlink t)) ∧
    (∀ (name t : String) (dstEs : List (String × Node)) (subEs : List (String × Node)),
      findEntry dstEs name = some (.dir subEs) →
      copy_dir_recursive_overwrite (some (.dir [(name, .symlink t)])) (some (.dir dstEs))
        = .error "fs::remove_file failed: Is a directory") := by
  refine ⟨?_, ?_, ?_, ?_⟩
  · intro ow name c dstEs h
    refine ⟨?_, findEntry_setEntry_self dstEs name (.file c)⟩
    rcases h with h | ⟨c0, h⟩ <;>
      simp [copy_dir_recursive_impl, copyDirEntries, h]
  · intro name t dstEs e h
    have hsome : (findEntry dstEs name).isSome = true := by rw [h]; rfl
    simp [copy_dir_recursive, copy_dir_recursive_impl, copyDirEntries, h, hsome]
  · intro name t dstEs hk h
    rcases h with h | ⟨c0, h⟩ | ⟨t0, h⟩
    · refine ⟨dstEs ++ [(name, .symlink t)], ?_, findEntry_append_right dstEs name _ h⟩
      simp [copy_dir_recursive_overwrite, copy_dir_recursive_impl, copyDirEntries, h]
    · have herase := findEntry_eraseEntry_self dstEs name hk
      refine ⟨eraseEntry dstEs name ++ [(name, .symlink t)], ?_,
        findEntry_append_right _ name _ herase⟩
      simp [copy_dir_recursive_overwrite, copy_dir_recursive_impl, copyDirEntries, h, herase]
    · have herase := findEntry_eraseEntry_self dstEs name hk
      refine ⟨eraseEntry dstEs name ++ [(name, .symlink t)], ?_,
        findEntry_append_right _ name _ herase⟩
      simp [copy_dir_recursive_overwrite, copy_dir_recursive_impl, copyDirEntries, h, herase]
  · intro name t dstEs subEs h
    simp [copy_dir_recursive_overwrite, copy_dir_recursive_impl, copyDirEntries, h]

/-- Witness for C9: the four behaviors at concrete one-entry trees. -/
theorem claim_C9_witness :
    copy_dir_recursive_impl (some (.dir [("f", .file "new")]))
        (some (.dir [("f", .file "old")])) false
      = .ok (some (.dir (setEntry [("f", .file "old")] "f" (.file "new"))), "new".length) ∧
    copy_dir_recursive (some (.dir [("l", .symlink "a")]))
        (some (.dir [("l", .symlink "b")])) = .ok (some (.dir [("l", .symlink "b")]), 0) ∧
    (∃ es2, copy_dir_recursive_overwrite (some (.dir [("l", .symlink "a")]))
        (some (.dir [("l", .symlink "b")])) = .ok (some (.dir es2), 0) ∧
      findEntry es2 "l" = some (.symlink "a")) ∧
    copy_dir_recursive_overwrite (some (.dir [("l", .symlink "a")]))
        (some (.dir [("l", .dir [])])) = .error "fs::remove_file failed: Is a directory" :=
  ⟨(claim_C9.1 false "f" "new" [("f", .file "old")] (Or.inr ⟨"old", rfl⟩)).1,
   claim_C9.2.1 "l" "a" [("l", .symlink "b")] (.symlink "b") rfl,
   claim_C9.2.2.1 "l" "a" [("l", .symlink "b")] (by decide)
     (Or.inr (Or.inr ⟨"b", rfl⟩)),
   claim_C9.2.2.2 "l" "a" [("l", .dir [])] [] rfl⟩

end LevisoElf

namespace LevisoElf

/- ===== Path-level tree lemmas ===== -/

theorem lookup_append_single (p : FPath) :
    ∀ (T : Node) (x : String),
    lookup T (p ++ [x]) = (match lookup T p with
      | some (.dir es) => findEntry es x
      | _ => none) := by
  induction p with
  | nil =>
    intro T x
    cases T with
    | file c => simp [lookup]
    | symlink t => simp [lookup]
    | dir es =>
      simp only [List.nil_append, lookup]
      cases hfe : findEntry es x with
      | none => rfl
      | some child => simp [lookup]
  | cons c cs ih =>
    intro T x
    cases T with
    | file c0 => simp [lookup]
    | symlink t0 => simp [lookup]
    | dir es =>
      simp only [List.cons_append, lookup]
      cases hfe : findEntry es c with
      | none => rfl
      | some child => exact ih child x

theorem setEntry_self_of_find (es : List (String × Node)) (c : String) (v : Node)
    (h : findEntry es c = some v) : setEntry es c v = es := by
  induction es with
  | nil => simp [findEntry, List.find?] at h
  | cons e rest ih =>
    obtain ⟨k, v0⟩ := e
    simp only [findEntry, List.find?] at h
    cases hk : k == c with
    | true =>
      rw [hk] at h
      simp only [Option.some.injEq] at h
      simp [setEntry, hk, h]
    | false =>
      rw [hk] at h
      simp only [setEntry, hk, Bool.false_eq_true, if_false]
      rw [ih (by simpa [findEntry] using h)]

theorem mkdirAll_noop (p : FPath) :
    ∀ (T : Node) (es : List (String × Node)),
    lookup T p = some (.dir es) → mkdirAll T p = some T := by
  induction p with
  | nil => intro T es _; cases T <;> rfl
  | cons c cs ih =>
    intro T es h
    cases T with
    | file c0 => simp [lookup] at h
    | symlink t0 => simp [lookup] at h
    | dir es0 =>
      simp only [lookup] at h
      cases hfe : findEntry es0 c with
      | none => rw [hfe] at h; cases h
      | some child =>
        simp only [hfe] at h
        have hchild : ∃ es2, child = .dir es2 := by
          cases child with
          | file cc => cases cs with
            | nil => simp [lookup] at h
            | cons d ds => simp [lookup] at h
          | symlink tt => cases cs with
            | nil => simp [lookup] at h
            | cons d ds => simp [lookup] at h
          | dir es2 => exact ⟨es2, rfl⟩
        obtain ⟨es2, rfl⟩ := hchild
        simp only [mkdirAll, hfe, ih (.dir es2) es h,
          setEntry_self_of_find es0 c (.dir es2) hfe]

theorem setAt_append (p : FPath) :
    ∀ (T : Node) (es : List (String × Node)) (x : String) (n : Node),
    lookup T p = some (.dir es) →
    (∀ sub, findEntry es x ≠ some (.dir sub)) →
    ∃ T2, setAt T (p ++ [x]) n = some T2 ∧
      lookup T2 p = some (.dir (setEntry es x n)) := by
  induction p with
  | nil =>
    intro T es x n h hnd
    simp only [lookup] at h
    obtain rfl : T = .dir es := by injection h
    refine ⟨.dir (setEntry es x n), ?_, rfl⟩
    simp only [List.nil_append, setAt]
  | cons c cs ih =>
    intro T es x n h hnd
    cases T with
    | file c0 => simp [lookup] at h
    | symlink t0 => simp [lookup] at h
    | dir es0 =>
      simp only [lookup] at h
      cases hfe : findEntry es0 c with
      | none => rw [hfe] at h; cases h
      | some child =>
        rw [hfe] at h
        obtain ⟨child2, hset, hlook⟩ := ih child es x n h hnd
        rcases hcs : cs ++ [x] with _ | ⟨c2, cs2⟩
        · exact absurd hcs (by simp)
        · refine ⟨.dir (setEntry es0 c child2), ?_, ?_⟩
          · simp only [List.cons_append, hcs, setAt, hfe]
            rw [← hcs, hset]
          · simp only [lookup, findEntry_setEntry_self]
            exact hlook

theorem resolveNode_lookup_none {T : Node} {p : FPath} (h : lookup T p = none) :
    ∀ fuel, resolveNode T fuel p = none := by
  intro fuel
  cases fuel with
  | zero => rfl
  | succ f => simp [resolveNode, h]

theorem resolveNode_lookup_file {T : Node} {p : FPath} {c : String}
    (h : lookup T p = some (.file c)) (fuel : Nat) :
    resolveNode T (fuel + 1) p = some (.file c) := by
  simp [resolveNode, h]

theorem resolveNode_lookup_symlink {T : Node} {p : FPath} {tgt : String}
    (h : lookup T p = some (.symlink tgt)) (fuel : Nat) :
    resolveNode T (fuel + 1) p = resolveNode T fuel (p.dropLast ++ splitPath tgt) := by
  simp [resolveNode, h]

theorem existsB_none {T : Node} {p : FPath} (h : lookup T p = none) :
    existsB T p = false := by
  rw [existsB, resolveNode_lookup_none h]
  rfl

theorem existsB_file {T : Node} {p : FPath} {c : String}
    (h : lookup T p = some (.file c)) : existsB T p = true := by
  rw [existsB, MAXSYMLINKS, show (40 : Nat) = 39 + 1 from rfl,
    resolveNode_lookup_file h]
  rfl

theorem existsB_symlink_file {T : Node} {p : FPath} {tgt cc : String}
    (h : lookup T p = some (.symlink tgt))
    (h2 : lookup T (p.dropLast ++ splitPath tgt) = some (.file cc)) :
    existsB T p = true := by
  rw [existsB, MAXSYMLINKS, show (40 : Nat) = 39 + 1 from rfl,
    resolveNode_lookup_symlink h, show (39 : Nat) = 38 + 1 from rfl,
    resolveNode_lookup_file h2]
  rfl

theorem readFileB_file {T : Node} {p : FPath} {c : String}
    (h : lookup T p = some (.file c)) : readFileB T p = some c := by
  rw [readFileB, MAXSYMLINKS, show (40 : Nat) = 39 + 1 from rfl,
    resolveNode_lookup_file h]

end LevisoElf

namespace LevisoElf

/- ===== copy_library_to scenario lemmas ===== -/

/-- Placement of a library that is a symlink with a plain relative
versioned target, target not yet present at the destination: the target
file is copied and the symlink is recreated with the same relative target. -/
theorem copyLib_symlink_fresh
    (rootStr : String) (srcT : Node) (lib : String) (dstT : Node)
    (l64 l : String) (extras privs : List String)
    (src : FPath) (t c : String) (d : FPath) (pes : List (String × Node))
    (hfind : find_library srcT lib extras = some src)
    (hsym : lookup srcT src = some (.symlink t))
    (hsplit : splitPath t = [t])
    (hrel : startsWithSlash t = false)
    (htgt : lookup srcT (src.dropLast ++ [t]) = some (.file c))
    (hdest : computeDest rootStr src dstT l64 l privs lib = .ok (dstT, d))
    (hd : d = d.dropLast ++ [lib])
    (hpar : lookup dstT d.dropLast = some (.dir pes))
    (hfresh : findEntry pes lib = none)
    (hneq : (lib == t) = false)
    (htd : findEntry pes t = none) :
    ∃ T2, copy_library_to rootStr srcT lib dstT l64 l extras privs = .ok T2 ∧
      lookup T2 d.dropLast =
        some (.dir (setEntry (setEntry pes t (.file c)) lib (.symlink t))) := by
  have hlookd : lookup dstT d = none := by
    rw [hd, lookup_append_single, hpar]
    exact hfresh
  have hexd : existsB dstT d = false := existsB_none hlookd
  have hlooktd : lookup dstT (d.dropLast ++ [t]) = none := by
    rw [lookup_append_single, hpar]
    exact htd
  have hextd : existsB dstT (d.dropLast ++ [t]) = false := existsB_none hlooktd
  have hexsrc : existsB srcT (src.dropLast ++ [t]) = true := existsB_file htgt
  obtain ⟨T1, hsetT1, hlookT1⟩ := setAt_append d.dropLast dstT pes t (.file c) hpar
    (by intro sub hcon; rw [htd] at hcon; cases hcon)
  have hfs : fs_copy srcT (src.dropLast ++ [t]) dstT (d.dropLast ++ [t]) = .ok T1 := by
    simp only [fs_copy, readFileB_file htgt, hsetT1]
  have hlookT1d : lookup T1 d = none := by
    rw [hd, lookup_append_single]
    simp only [hlookT1, findEntry_setEntry_ne _ _ _ _ hneq, hfresh]
  have hexT1d : existsB T1 d = false := existsB_none hlookT1d
  obtain ⟨T2, hsetT2, hlookT2⟩ := setAt_append d.dropLast T1 (setEntry pes t (.file c))
    lib (.symlink t) hlookT1
    (by intro sub hcon
        rw [findEntry_setEntry_ne _ _ _ _ hneq, hfresh] at hcon
        cases hcon)
  have hsetd : setAt T1 d (.symlink t) = some T2 := by
    rw [hd]
    exact hsetT2
  refine ⟨T2, ?_, hlookT2⟩
  simp [copy_library_to, hfind, hdest, hexd, hsym, hrel, hsplit, hexsrc, hextd, hfs,
    hexT1d, hlookT1d, hsetd]

end LevisoElf

namespace LevisoElf

/-- Placement of a symlink library whose versioned target file is already
present at its destination name: the existing target is kept (no copy) and
the symlink is recreated. -/
theorem copyLib_symlink_present
    (rootStr : String) (srcT : Node) (lib : String) (dstT : Node)
    (l64 l : String) (extras privs : List String)
    (src : FPath) (t c c0 : String) (d : FPath) (pes : List (String × Node))
    (hfind : find_library srcT lib extras = some src)
    (hsym : lookup srcT src = some (.symlink t))
    (hsplit : splitPath t = [t])
    (hrel : startsWithSlash t = false)
    (htgt : lookup srcT (src.dropLast ++ [t]) = some (.file c))
    (hdest : computeDest rootStr src dstT l64 l privs lib = .ok (dstT, d))
    (hd : d = d.dropLast ++ [lib])
    (hpar : lookup dstT d.dropLast = some (.dir pes))
    (hfresh : findEntry pes lib = none)
    (hneq : (lib == t) = false)
    (htd : findEntry pes t = some (.file c0)) :
    ∃ T2, copy_library_to rootStr srcT lib dstT l64 l extras privs = .ok T2 ∧
      lookup T2 d.dropLast = some (.dir (setEntry pes lib (.symlink t))) := by
  have hlookd : lookup dstT d = none := by
    rw [hd, lookup_append_single, hpar]
    exact hfresh
  have hexd : existsB dstT d = false := existsB_none hlookd
  have hlooktd : lookup dstT (d.dropLast ++ [t]) = some (.file c0) := by
    rw [lookup_append_single, hpar]
    exact htd
  have hextd : existsB dstT (d.dropLast ++ [t]) = true := existsB_file hlooktd
  have hexsrc : existsB srcT (src.dropLast ++ [t]) = true := existsB_file htgt
  obtain ⟨T2, hsetT2, hlookT2⟩ := setAt_append d.dropLast dstT pes lib (.symlink t) hpar
    (by intro sub hcon; rw [hfresh] at hcon; cases hcon)
  have hsetd : setAt dstT d (.symlink t) = some T2 := by
    rw [hd]
    exact hsetT2
  refine ⟨T2, ?_, hlookT2⟩
  simp [copy_library_to, hfind, hdest, hexd, hsym, hrel, hsplit, hexsrc, hextd,
    hlookd, hsetd]

/-- Placement of a library that resolves to a plain regular file: the file
is copied to the destination path. -/
theorem copyLib_file
    (rootStr : String) (srcT : Node) (lib : String) (dstT : Node)
    (l64 l : String) (extras privs : List String)
    (src : FPath) (c : String) (d : FPath) (pes : List (String × Node))
    (hfind : find_library srcT lib extras = some src)
    (hsrc : lookup srcT src = some (.file c))
    (hdest : computeDest rootStr src dstT l64 l privs lib = .ok (dstT, d))
    (hd : d = d.dropLast ++ [lib])
    (hpar : lookup dstT d.dropLast = some (.dir pes))
    (hfresh : findEntry pes lib = none) :
    ∃ T2, copy_library_to rootStr srcT lib dstT l64 l extras privs = .ok T2 ∧
      lookup T2 d.dropLast = some (.dir (setEntry pes lib (.file c))) := by
  have hlookd : lookup dstT d = none := by
    rw [hd, lookup_append_single, hpar]
    exact hfresh
  have hexd : existsB dstT d = false := existsB_none hlookd
  obtain ⟨T2, hsetT2, hlookT2⟩ := setAt_append d.dropLast dstT pes lib (.file c) hpar
    (by intro sub hcon; rw [hfresh] at hcon; cases hcon)
  have hsetd : setAt dstT d (.file c) = some T2 := by
    rw [hd]
    exact hsetT2
  have hfs : fs_copy srcT src dstT d = .ok T2 := by
    simp only [fs_copy, readFileB_file hsrc, hsetd]
  refine ⟨T2, ?_, hlookT2⟩
  simp [copy_library_to, hfind, hdest, hexd, hsrc, hfs]

/-- When the computed destination path already exists, copy_library_to is
a no-op success. -/
theorem copyLib_noop
    (rootStr : String) (srcT : Node) (lib : String) (dstT : Node)
    (l64 l : String) (extras privs : List String) (src : FPath) (d : FPath)
    (hfind : find_library srcT lib extras = some src)
    (hdest : computeDest rootStr src dstT l64 l privs lib = .ok (dstT, d))
    (hex : existsB dstT d = true) :
    copy_library_to rootStr srcT lib dstT l64 l extras privs = .ok dstT := by
  simp [copy_library_to, hfind, hdest, hex]

/-- The destination choice is unchanged when recomputed against a tree in
which the destination directory (still) exists as a directory. -/
theorem computeDest_stable
    (rootStr : String) (src : FPath) (dstT T2 : Node)
    (l64 l : String) (privs : List String) (lib : String) (d : FPath)
    (pes2 : List (String × Node))
    (hdest : computeDest rootStr src dstT l64 l privs lib = .ok (dstT, d))
    (hpar2 : lookup T2 d.dropLast = some (.dir pes2)) :
    computeDest rootStr src T2 l64 l privs lib = .ok (T2, d) := by
  unfold computeDest at hdest ⊢
  cases hp : privs.find? (fun dd =>
      strContains (rootStr ++ "/" ++ joinPath src) ("lib64/" ++ dd)
        || strContains (rootStr ++ "/" ++ joinPath src) ("lib/" ++ dd)) with
  | none =>
    simp only [hp] at hdest ⊢
    by_cases hc : strContains (rootStr ++ "/" ++ joinPath src) "lib64" = true
    · simp only [hc, if_true] at hdest ⊢
      obtain ⟨-, rfl⟩ : dstT = dstT ∧ splitPath l64 ++ [lib] = d := by
        constructor
        · rfl
        · injection hdest with h1
          injection h1 with h2 h3
      rfl
    · simp only [if_neg hc] at hdest ⊢
      obtain rfl : splitPath l ++ [lib] = d := by
        injection hdest with h1
        injection h1 with h2 h3
      rfl
  | some dd =>
    simp only [hp] at hdest ⊢
    cases hm : mkdirAll dstT (splitPath l64 ++ [dd]) with
    | none =>
      rw [hm] at hdest
      simp at hdest
    | some t2 =>
      simp only [hm] at hdest
      obtain ⟨rfl, rfl⟩ : t2 = dstT ∧ splitPath l64 ++ [dd] ++ [lib] = d := by
        constructor
        · injection hdest with h1
          injection h1 with h2 h3
        · injection hdest with h1
          injection h1 with h2 h3
      have hdrop : (splitPath l64 ++ [dd] ++ [lib]).dropLast = splitPath l64 ++ [dd] :=
        List.dropLast_concat
      rw [hdrop] at hpar2
      rw [mkdirAll_noop (splitPath l64 ++ [dd]) T2 pes2 hpar2]

end LevisoElf

namespace LevisoElf

/- ===== Claim C3 ===== -/

/-- Concrete source tree whose library symlink has an absolute target that
resolves inside the source tree. -/
def absLinkSrc : Node := .dir [("usr", .dir [("lib64", .dir
  [("libfoo.so", .symlink "/usr/lib64/libfoo.so.1"),
   ("libfoo.so.1", .file "CONTENT")])])]

/-- Concrete destination tree with an empty 64-bit library directory. -/
def emptyDst : Node := .dir [("lib64", .dir [])]

/-- C3 counterexample: for a source symlink with an absolute target that
resolves inside the source tree, the recreated destination symlink keeps
the absolute target verbatim; it is not the relative versioned name, so
the claim clause (recreated symlink never points at an absolute path, its
target is exactly the relative versioned name) fails on this input. -/
theorem claim_C3_counterexample :
    copy_library_to "/src" absLinkSrc "libfoo.so" emptyDst "lib64" "lib" [] []
      = .ok (.dir [("lib64", .dir [("libfoo.so.1", .file "CONTENT"),
          ("libfoo.so", .symlink "/usr/lib64/libfoo.so.1")])]) ∧
    startsWithSlash "/usr/lib64/libfoo.so.1" = true ∧
    "/usr/lib64/libfoo.so.1" ≠ "libfoo.so.1" :=
  ⟨rfl, rfl, by decide⟩

theorem beq_comm_false {a b : String} (h : (a == b) = false) : (b == a) = false := by
  simp only [beq_eq_false_iff_ne] at h ⊢
  exact fun hh => h hh.symm

/-- C3 (amended): for every source library that is a symlink whose target
is a plain relative versioned file name (a single path component) whose
target resolves inside the source tree, copy_library_to copies the
underlying target file first, unless one is already present at its
destination name, and then recreates the symlink pointing at exactly that
relative target name: afterwards the destination holds the target name as
a regular file (with the source content when it was freshly copied) and
the library name as a symlink whose target is exactly the relative
versioned name.  (The amendment drops the absolute-target case: there the
code recreates the link with the absolute target verbatim, see the
counterexample.) -/
theorem claim_C3
    (rootStr : String) (srcT : Node) (lib : String) (dstT : Node)
    (l64 l : String) (extras privs : List String)
    (src : FPath) (t c : String) (d : FPath) (pes : List (String × Node))
    (hfind : find_library srcT lib extras = some src)
    (hsym : lookup srcT src = some (.symlink t))
    (hsplit : splitPath t = [t])
    (hrel : startsWithSlash t = false)
    (htgt : lookup srcT (src.dropLast ++ [t]) = some (.file c))
    (hdest : computeDest rootStr src dstT l64 l privs lib = .ok (dstT, d))
    (hd : d = d.dropLast ++ [lib])
    (hpar : lookup dstT d.dropLast = some (.dir pes))
    (hfresh : findEntry pes lib = none)
    (hneq : (lib == t) = false) :
    (findEntry pes t = none →
      ∃ T2, copy_library_to rootStr srcT lib dstT l64 l extras privs = .ok T2 ∧
        lookup T2 (d.dropLast ++ [t]) = some (.file c) ∧
        lookup T2 d = some (.symlink t)) ∧
    (∀ c0, findEntry pes t = some (.file c0) →
      ∃ T2, copy_library_to rootStr srcT lib dstT l64 l extras privs = .ok T2 ∧
        lookup T2 (d.dropLast ++ [t]) = some (.file c0) ∧
        lookup T2 d = some (.symlink t)) := by
  have hneq' : (t == lib) = false := beq_comm_false hneq
  constructor
  · intro htd
    obtain ⟨T2, hcall, hlook⟩ := copyLib_symlink_fresh rootStr srcT lib dstT l64 l
      extras privs src t c d pes hfind hsym hsplit hrel htgt hdest hd hpar hfresh hneq htd
    refine ⟨T2, hcall, ?_, ?_⟩
    · rw [lookup_append_single]
      simp only [hlook, findEntry_setEntry_ne _ _ _ _ hneq', findEntry_setEntry_self]
    · rw [hd, lookup_append_single]
      simp only [hlook, findEntry_setEntry_self]
  · intro c0 htd
    obtain ⟨T2, hcall, hlook⟩ := copyLib_symlink_present rootStr srcT lib dstT l64 l
      extras privs src t c c0 d pes hfind hsym hsplit hrel htgt hdest hd hpar hfresh hneq htd
    refine ⟨T2, hcall, ?_, ?_⟩
    · rw [lookup_append_single]
      simp only [hlook, findEntry_setEntry_ne _ _ _ _ hneq', htd]
    · rw [hd, lookup_append_single]
      simp only [hlook, findEntry_setEntry_self]

/-- Concrete source tree whose library symlink has the conventional plain
relative versioned target. -/
def relLinkSrc : Node := .dir [("usr", .dir [("lib64", .dir
  [("libfoo.so", .symlink "libfoo.so.1"),
   ("libfoo.so.1", .file "CONTENT")])])]

/-- Witness for C3: the symlink round trip at a concrete tree. -/
theorem claim_C3_witness :
    ∃ T2, copy_library_to "/src" relLinkSrc "libfoo.so" emptyDst "lib64" "lib" [] []
        = .ok T2 ∧
      lookup T2 (["lib64", "libfoo.so"].dropLast ++ ["libfoo.so.1"])
        = some (.file "CONTENT") ∧
      lookup T2 ["lib64", "libfoo.so"] = some (.symlink "libfoo.so.1") :=
  (claim_C3 "/src" relLinkSrc "libfoo.so" emptyDst "lib64" "lib" [] []
    ["usr", "lib64", "libfoo.so"] "libfoo.so.1" "CONTENT" ["lib64", "libfoo.so"] []
    rfl rfl (by decide) rfl rfl rfl rfl rfl rfl (by decide)).1 rfl

/- ===== Claim C8 ===== -/

/-- Concrete source tree whose library symlink target has two path
components (a subdirectory); its target still resolves in the source tree. -/
def multiLinkSrc : Node := .dir [("usr", .dir [("lib64", .dir
  [("libbar.so", .symlink "v/libbar.so.1"),
   ("v", .dir [("libbar.so.1", .file "Y")])])])]

/-- Destination state after one successful placement from multiLinkSrc. -/
def multiDstOnce : Node := .dir [("lib64", .dir [("libbar.so.1", .file "Y"),
  ("libbar.so", .symlink "v/libbar.so.1")])]

/-- C8 counterexample: with a two-component symlink target the first call
succeeds, but the created destination link dangles (its target names a
subdirectory that was never created), so the destination path still does
not exist; the second call with identical arguments is not a no-op: it
reaches symlink creation again and fails with EEXIST.  Calling twice is
not error-free, refuting the claim as stated. -/
theorem claim_C8_counterexample :
    copy_library_to "/src" multiLinkSrc "libbar.so" emptyDst "lib64" "lib" [] []
      = .ok multiDstOnce ∧
    copy_library_to "/src" multiLinkSrc "libbar.so" multiDstOnce "lib64" "lib" [] []
      = .error "symlink failed: File exists at lib64/libbar.so" :=
  ⟨rfl, rfl⟩

/-- C8 (amended): whenever the computed destination path already exists,
copy_library_to is a no-op success; and re-running a successful placement
is a no-op success with an unchanged tree, provided the resolved source is
a regular file or a symlink whose target is a plain (single component)
relative versioned name.  (The amendment excludes symlinks with
multi-component targets: there the recreated link dangles and a second
call fails, see the counterexample.) -/
theorem claim_C8
    (rootStr : String) (srcT : Node) (lib : String) (dstT : Node)
    (l64 l : String) (extras privs : List String)
    (src : FPath) (d : FPath) (pes : List (String × Node)) :
    (find_library srcT lib extras = some src →
      computeDest rootStr src dstT l64 l privs lib = .ok (dstT, d) →
      existsB dstT d = true →
      copy_library_to rootStr srcT lib dstT l64 l extras privs = .ok dstT) ∧
    (∀ t c, find_library srcT lib extras = some src →
      lookup srcT src = some (.symlink t) →
      splitPath t = [t] → startsWithSlash t = false →
      lookup srcT (src.dropLast ++ [t]) = some (.file c) →
      computeDest rootStr src dstT l64 l privs lib = .ok (dstT, d) →
      d = d.dropLast ++ [lib] →
      lookup dstT d.dropLast = some (.dir pes) →
      findEntry pes lib = none → (lib == t) = false →
      (findEntry pes t = none ∨ ∃ c0, findEntry pes t = some (.file c0)) →
      ∃ T2, copy_library_to rootStr srcT lib dstT l64 l extras privs = .ok T2 ∧
        copy_library_to rootStr srcT lib T2 l64 l extras privs = .ok T2) ∧
    (∀ c, find_library srcT lib extras = some src →
      lookup srcT src = some (.file c) →
      computeDest rootStr src dstT l64 l privs lib = .ok (dstT, d) →
      d = d.dropLast ++ [lib] →
      lookup dstT d.dropLast = some (.dir pes) →
      findEntry pes lib = none →
      ∃ T2, copy_library_to rootStr srcT lib dstT l64 l extras privs = .ok T2 ∧
        copy_library_to rootStr srcT lib T2 l64 l extras privs = .ok T2) := by
  refine ⟨?_, ?_, ?_⟩
  · intro hfind hdest hex
    exact copyLib_noop rootStr srcT lib dstT l64 l extras privs src d hfind hdest hex
  · intro t c hfind hsym hsplit hrel htgt hdest hd hpar hfresh hneq htd
    have hneq' : (t == lib) = false := beq_comm_false hneq
    rcases htd with htd | ⟨c0, htd⟩
    · obtain ⟨T2, hcall, hlook⟩ := copyLib_symlink_fresh rootStr srcT lib dstT l64 l
        extras privs src t c d pes hfind hsym hsplit hrel htgt hdest hd hpar hfresh hneq htd
      refine ⟨T2, hcall, ?_⟩
      have hlookd : lookup T2 d = some (.symlink t) := by
        rw [hd, lookup_append_single]
        simp only [hlook, findEntry_setEntry_self]
      have hlooktd : lookup T2 (d.dropLast ++ [t]) = some (.file c) := by
        rw [lookup_append_single]
        simp only [hlook, findEntry_setEntry_ne _ _ _ _ hneq', findEntry_setEntry_self]
      have hex2 : existsB T2 d = true :=
        existsB_symlink_file hlookd (by rw [hsplit]; exact hlooktd)
      exact copyLib_noop rootStr srcT lib T2 l64 l extras privs src d hfind
        (computeDest_stable rootStr src dstT T2 l64 l privs lib d _ hdest
          (by rw [hlook])) hex2
    · obtain ⟨T2, hcall, hlook⟩ := copyLib_symlink_present rootStr srcT lib dstT l64 l
        extras privs src t c c0 d pes hfind hsym hsplit hrel htgt hdest hd hpar hfresh hneq htd
      refine ⟨T2, hcall, ?_⟩
      have hlookd : lookup T2 d = some (.symlink t) := by
        rw [hd, lookup_append_single]
        simp only [hlook, findEntry_setEntry_self]
      have hlooktd : lookup T2 (d.dropLast ++ [t]) = some (.file c0) := by
        rw [lookup_append_single]
        simp only [hlook, findEntry_setEntry_ne _ _ _ _ hneq', htd]
      have hex2 : existsB T2 d = true :=
        existsB_symlink_file hlookd (by rw [hsplit]; exact hlooktd)
      exact copyLib_noop rootStr srcT lib T2 l64 l extras privs src d hfind
        (computeDest_stable rootStr src dstT T2 l64 l privs lib d _ hdest
          (by rw [hlook])) hex2
  · intro c hfind hsrc hdest hd hpar hfresh
    obtain ⟨T2, hcall, hlook⟩ := copyLib_file rootStr srcT lib dstT l64 l
      extras privs src c d pes hfind hsrc hdest hd hpar hfresh
    refine ⟨T2, hcall, ?_⟩
    have hlookd : lookup T2 d = some (.file c) := by
      rw [hd, lookup_append_single]
      simp only [hlook, findEntry_setEntry_self]
    have hex2 : existsB T2 d = true := existsB_file hlookd
    exact copyLib_noop rootStr srcT lib T2 l64 l extras privs src d hfind
      (computeDest_stable rootStr src dstT T2 l64 l privs lib d _ hdest
        (by rw [hlook])) hex2

/-- Witness for C8: the no-op and the re-run at concrete trees. -/
theorem claim_C8_witness :
    copy_library_to "/src" relLinkSrc "libfoo.so"
        (.dir [("lib64", .dir [("libfoo.so.1", .file "CONTENT"),
          ("libfoo.so", .symlink "libfoo.so.1")])]) "lib64" "lib" [] []
      = .ok (.dir [("lib64", .dir [("libfoo.so.1", .file "CONTENT"),
          ("libfoo.so", .symlink "libfoo.so.1")])]) ∧
    (∃ T2, copy_library_to "/src" relLinkSrc "libfoo.so" emptyDst "lib64" "lib" [] []
        = .ok T2 ∧
      copy_library_to "/src" relLinkSrc "libfoo.so" T2 "lib64" "lib" [] [] = .ok T2) :=
  ⟨(claim_C8 "/src" relLinkSrc "libfoo.so"
      (.dir [("lib64", .dir [("libfoo.so.1", .file "CONTENT"),
        ("libfoo.so", .symlink "libfoo.so.1")])]) "lib64" "lib" [] []
      ["usr", "lib64", "libfoo.so"] ["lib64", "libfoo.so"] []).1 rfl rfl rfl,
   (claim_C8 "/src" relLinkSrc "libfoo.so" emptyDst "lib64" "lib" [] []
      ["usr", "lib64", "libfoo.so"] ["lib64", "libfoo.so"] []).2.1 "libfoo.so.1" "CONTENT"
      rfl rfl (by decide) rfl rfl rfl rfl rfl rfl (by decide) (Or.inl rfl)⟩

end LevisoElf
